import Mathlib

/-!
Verification development for the arcanalib labeled-property-graph library
(`arcanalib/graph.py`).  Python records ("data" dictionaries) are embedded as
association lists from string keys to a dynamic value type; dictionary access
that can raise in Python is modelled in the `Except` monad.  The `elements`
and `data` wrapper layers of the interchange structure are fixed single-key
shells and are modelled away: `GraphData.nodes` holds the node `data`
dictionaries and `GraphData.edges` the edge `data` dictionaries.
-/

namespace ArcanaLib

/-- Python values reachable in the graph records: strings and lists of
strings (node label lists).  This is the value universe the library's own
tests exercise. -/
inductive Val where
  | str (s : String)
  | lst (xs : List String)
deriving DecidableEq

/-- Python exceptions that the modelled code can raise. -/
inductive Err where
  | keyError (k : String)
  | typeError (msg : String)
deriving DecidableEq

/-- A Python dictionary with string keys, as an insertion-ordered
association list with unique keys. -/
abbrev Dict := List (String × Val)

/-- First-match association-list lookup (Python `d[k]` / `d.get(k)` on a
dict whose keys are unique). -/
def alookup {α : Type} : List (String × α) → String → Option α
  | [], _ => none
  | (k', v) :: rest, k => if k' = k then some v else alookup rest k

/-- Python dict assignment `d[k] = v`: replace in place if the key exists
(keeping its position, as CPython dicts do), else append at the end. -/
def aset {α : Type} : List (String × α) → String → α → List (String × α)
  | [], k, v => [(k, v)]
  | (k', v') :: rest, k, v =>
    if k' = k then (k, v) :: rest else (k', v') :: aset rest k v

/-- Python `d[k]` on a dict: the value, or a `KeyError`. -/
def dgetE (e : Dict) (k : String) : Except Err Val :=
  match alookup e k with
  | some v => Except.ok v
  | none => Except.error (Err.keyError k)

/-- Truthiness of an optional string argument (`if new_label` in Python):
`None` and the empty string are falsy. -/
def truthy : Option String → Bool
  | none => false
  | some s => !(s = "")

/-- Python `str(v)` / f-string interpolation of a value.  For a list of
plain quote-free strings this is CPython's repr; no claim exercises the
list case. -/
def pyFmt : Val → String
  | Val.str s => s
  | Val.lst xs => "[" ++ String.intercalate ", " (xs.map (fun x => "'" ++ x ++ "'")) ++ "]"

/-- Iterating a Python value: a string yields its one-character strings, a
list yields its elements. -/
def iterVal : Val → List String
  | Val.str s => s.toList.map (fun c => Char.toString c)
  | Val.lst xs => xs

/-- Python `','.join(v)` for an iterable value. -/
def joinComma (v : Val) : String :=
  String.intercalate "," (iterVal v)

/-! ## The edge relation algebra (module-level functions of graph.py) -/

/-- One step of `invert` (graph.py lines 16-20): the dict literal
evaluates `edge['target']`, then `edge['source']`, then the label
expression; the result is the input dict with the three fixed fields
overwritten. -/
def invertEdge (new_label : Option String) (e : Dict) : Except Err Dict := do
  let tv ← dgetE e "target"
  let sv ← dgetE e "source"
  let lab ←
    match new_label with
    | some s =>
      if s = "" then invertFallback e else Except.ok s
    | none => invertFallback e
  Except.ok (aset (aset (aset e "source" tv) "target" sv) "label" (Val.str lab))
where
  /-- Model of `"inv_" + edge.get('label', 'edge')`; adding a list to a string is a
  `TypeError` in Python. -/
  invertFallback (e : Dict) : Except Err String :=
    match alookup e "label" with
    | some (Val.str s) => Except.ok ("inv_" ++ s)
    | some (Val.lst _) => Except.error (Err.typeError "can only concatenate str to str")
    | none => Except.ok ("inv_" ++ "edge")

/-- Model of `invert(edge_list, new_label=None)` of graph.py: list comprehension,
left to right. -/
def invert : List Dict → Option String → Except Err (List Dict)
  | [], _ => Except.ok []
  | e :: rest, nl => do
    let e' ← invertEdge nl e
    let rest' ← invert rest nl
    Except.ok (e' :: rest')

/-- The `mapping` dict comprehension of `compose` (graph.py lines 35-40):
keyed by `edge['source']`, value `(edge['target'], edge['label'])`;
repeated source keys are overwritten (last write wins); an unhashable
(list) source key is a `TypeError`. -/
def mkMapping : List Dict → List (String × (Val × Val)) → Except Err (List (String × (Val × Val)))
  | [], acc => Except.ok acc
  | e :: rest, acc => do
    let sv ← dgetE e "source"
    let tv ← dgetE e "target"
    let lv ← dgetE e "label"
    match sv with
    | Val.str s => mkMapping rest (aset acc s (tv, lv))
    | Val.lst _ => Except.error (Err.typeError "unhashable type: list")

/-- The composed label `f"{edge['label']},{mapping[...]['label']}"`. -/
def composeJoin (e : Dict) (ml : Val) : Except Err String := do
  let lv ← dgetE e "label"
  Except.ok (pyFmt lv ++ "," ++ pyFmt ml)

/-- One iteration of the `compose` loop (graph.py lines 42-48): membership
test `edge['target'] in mapping` (a list target is unhashable), then the
emitted three-field dict. -/
def composeStep (mapping : List (String × (Val × Val))) (new_label : Option String)
    (e : Dict) : Except Err (Option Dict) := do
  let tv ← dgetE e "target"
  match tv with
  | Val.lst _ => Except.error (Err.typeError "unhashable type: list")
  | Val.str key =>
    match alookup mapping key with
    | none => Except.ok none
    | some (mt, ml) => do
      let sv ← dgetE e "source"
      let lab ←
        match new_label with
        | some s => if s = "" then composeJoin e ml else Except.ok s
        | none => composeJoin e ml
      Except.ok (some [("source", sv), ("target", mt), ("label", Val.str lab)])

/-- The `compose` output loop over `edges1`, skipping unmatched edges. -/
def composeList (mapping : List (String × (Val × Val))) (new_label : Option String) :
    List Dict → Except Err (List Dict)
  | [] => Except.ok []
  | e :: rest => do
    let o ← composeStep mapping new_label e
    let rest' ← composeList mapping new_label rest
    match o with
    | some d => Except.ok (d :: rest')
    | none => Except.ok rest'

/-- Model of `compose(edges1, edges2, new_label=None)` of graph.py. -/
def compose (edges1 edges2 : List Dict) (new_label : Option String) : Except Err (List Dict) := do
  let mapping ← mkMapping edges2 []
  composeList mapping new_label edges1

/-- Model of `lift(edges1, edges2, new_label=None)` of graph.py:
`compose(compose(edges1, edges2), invert(edges1), new_label)`. -/
def lift (edges1 edges2 : List Dict) (new_label : Option String) : Except Err (List Dict) := do
  let c ← compose edges1 edges2 none
  let iv ← invert edges1 none
  compose c iv new_label

/-! ## The Graph container -/

/-- The interchange payload: the node `data` dicts and edge `data` dicts,
in input order (the fixed `elements`/`data` wrappers are modelled away). -/
structure GraphData where
  nodes : List Dict
  edges : List Dict
deriving DecidableEq

/-- A `Graph` instance: node index (id to attributes) and edge index
(label to ordered edge list), both insertion ordered. -/
structure Graph where
  nodes : List (String × Dict)
  edges : List (String × List Dict)
deriving DecidableEq

/-- The node-index dict comprehension of `Graph.__init__` (line 83):
`node['data']['id']` raises `KeyError` when absent, an unhashable id is a
`TypeError`, and a repeated id keeps the first position with the last
value. -/
def buildNodes : List Dict → List (String × Dict) → Except Err (List (String × Dict))
  | [], acc => Except.ok acc
  | nd :: rest, acc => do
    let idv ← dgetE nd "id"
    match idv with
    | Val.str s => buildNodes rest (aset acc s nd)
    | Val.lst _ => Except.error (Err.typeError "unhashable type: list")

/-- Label resolution of one edge in `Graph.__init__` (lines 86-90): use
`data['label']` when present (a list label would be unhashable as an index
key); otherwise comma-join `data['labels']` (`KeyError` when also absent)
and write the joined value back into the edge's `label` attribute. -/
def edgeLabel (e : Dict) : Except Err (String × Dict) :=
  match alookup e "label" with
  | some (Val.str s) => Except.ok (s, e)
  | some (Val.lst _) => Except.error (Err.typeError "unhashable type: list")
  | none =>
    match alookup e "labels" with
    | none => Except.error (Err.keyError "labels")
    | some v => Except.ok (joinComma v, aset e "label" (Val.str (joinComma v)))

/-- Appending one edge to the edge index (lines 92-94). -/
def addEdge (acc : List (String × List Dict)) (e : Dict) : Except Err (List (String × List Dict)) := do
  let (label, e') ← edgeLabel e
  match alookup acc label with
  | some el => Except.ok (aset acc label (el ++ [e']))
  | none => Except.ok (aset acc label [e'])

/-- The edge-index loop of `Graph.__init__`. -/
def buildEdges : List Dict → List (String × List Dict) → Except Err (List (String × List Dict))
  | [], acc => Except.ok acc
  | e :: rest, acc => do
    let acc' ← addEdge acc e
    buildEdges rest acc'

/-- Model of `Graph.__init__(graph_data)`: build the node index, then the edge
index; any failure propagates and no Graph instance results. -/
def Graph.init (gd : GraphData) : Except Err Graph := do
  let ns ← buildNodes gd.nodes []
  let es ← buildEdges gd.edges []
  Except.ok ⟨ns, es⟩

/-- Model of `Graph.invert_edges(edge_label, new_label=None)` (lines 96-107):
silent no-op when the label is absent; `new_label or f"inv_{edge_label}"`
treats the empty string as falsy. -/
def Graph.invert_edges (g : Graph) (edge_label : String) (new_label : Option String) :
    Except Err Graph :=
  match alookup g.edges edge_label with
  | none => Except.ok g
  | some el => do
    let inverted ← invert el new_label
    let nl :=
      match new_label with
      | some s => if s = "" then "inv_" ++ edge_label else s
      | none => "inv_" ++ edge_label
    Except.ok ⟨g.nodes, aset g.edges nl inverted⟩

/-- Model of `Graph.compose_edges(edge_label1, edge_label2, new_label=None)`
(lines 109-121): the stored label is resolved first and passed to
`compose`. -/
def Graph.compose_edges (g : Graph) (l1 l2 : String) (new_label : Option String) :
    Except Err Graph :=
  match alookup g.edges l1, alookup g.edges l2 with
  | some e1, some e2 => do
    let nl :=
      match new_label with
      | some s => if s = "" then l1 ++ "_" ++ l2 else s
      | none => l1 ++ "_" ++ l2
    let comp ← compose e1 e2 (some nl)
    Except.ok ⟨g.nodes, aset g.edges nl comp⟩
  | _, _ => Except.ok g

/-- Model of `Graph.lift_edges(edge_label1, edge_label2, new_label=None)`
(lines 123-135): `lift` receives the raw (possibly `None`) `new_label`;
the storage key is resolved afterwards. -/
def Graph.lift_edges (g : Graph) (l1 l2 : String) (new_label : Option String) :
    Except Err Graph :=
  match alookup g.edges l1, alookup g.edges l2 with
  | some e1, some e2 => do
    let lifted ← lift e1 e2 new_label
    let nl :=
      match new_label with
      | some s => if s = "" then "lifted_" ++ l1 ++ "_" ++ l2 else s
      | none => "lifted_" ++ l1 ++ "_" ++ l2
    Except.ok ⟨g.nodes, aset g.edges nl lifted⟩
  | _, _ => Except.ok g

/-- An element of the `included_node_labels` set in `to_dict`: Python puts
both plain label strings and `(source, target)` label tuples in it. -/
inductive NLElem where
  | str (s : String)
  | pair (a b : String)
deriving DecidableEq

/-- Python `label in labels` where `label` is a string: a string equals no
tuple. -/
def labelInNL (s : String) (ls : List NLElem) : Bool :=
  ls.any (fun x => x = NLElem.str s)

/-- Insertion into a Python set, modelled as an ordered duplicate-free
list. -/
def nlInsert (acc : List NLElem) (x : NLElem) : List NLElem :=
  if acc.any (fun y => y = x) then acc else acc ++ [x]

/-- Model of `Graph.filter_nodes_by_labels(labels)` (lines 137-151): keeps nodes
whose `labels` value (`KeyError` when absent) has a member of the given
collection; insertion order preserved. -/
def filterNodesRec (labels : List NLElem) :
    List (String × Dict) → List (String × Dict) → Except Err (List (String × Dict))
  | [], acc => Except.ok acc
  | kv :: rest, acc => do
    let lv ← dgetE kv.2 "labels"
    if (iterVal lv).any (fun l => labelInNL l labels) then
      filterNodesRec labels rest (acc ++ [kv])
    else
      filterNodesRec labels rest acc

def Graph.filter_nodes_by_labels (g : Graph) (labels : List NLElem) :
    Except Err (List (String × Dict)) :=
  filterNodesRec labels g.nodes []

/-- Insertion into a set of strings. -/
def strInsert (acc : List String) (s : String) : List String :=
  if acc.any (fun y => y = s) then acc else acc ++ [s]

/-- Model of `Graph.get_all_node_labels()` (lines 153-154), the set modelled as an
ordered duplicate-free list. -/
def allNodeLabelsRec : List (String × Dict) → List String → Except Err (List String)
  | [], acc => Except.ok acc
  | kv :: rest, acc => do
    let lv ← dgetE kv.2 "labels"
    allNodeLabelsRec rest ((iterVal lv).foldl strInsert acc)

def Graph.get_all_node_labels (g : Graph) : Except Err (List String) :=
  allNodeLabelsRec g.nodes []

/-- Model of `self.nodes.get(v, {}).get('labels', [])`: a missing node or a node
without `labels` contributes the empty list; an unhashable key is a
`TypeError`. -/
def nodeLabelsOf (g : Graph) (v : Val) : Except Err (List String) :=
  match v with
  | Val.lst _ => Except.error (Err.typeError "unhashable type: list")
  | Val.str s =>
    match alookup g.nodes s with
    | none => Except.ok []
    | some nd =>
      match alookup nd "labels" with
      | none => Except.ok []
      | some lv => Except.ok (iterVal lv)

/-- Model of `Graph.get_edge_node_labels(edge)` (lines 176-188): the cross product
of the source node's labels and the target node's labels, source-major. -/
def Graph.get_edge_node_labels (g : Graph) (e : Dict) : Except Err (List (String × String)) := do
  let sv ← dgetE e "source"
  let src_labels ← nodeLabelsOf g sv
  let tv ← dgetE e "target"
  let tgt_labels ← nodeLabelsOf g tv
  Except.ok (src_labels.flatMap (fun a => tgt_labels.map (fun b => (a, b))))

/-- A key used to index `self.edges`.  `generate_ontology` (line 210)
passes the edge *list* of each entry where a label string is expected;
hashing a list raises `TypeError` before any comparison. -/
inductive EKey where
  | str (s : String)
  | lst (el : List Dict)
deriving DecidableEq

/-- Model of `self.edges[k]`. -/
def Graph.edgesGet (g : Graph) (k : EKey) : Except Err (List Dict) :=
  match k with
  | EKey.lst _ => Except.error (Err.typeError "unhashable type: list")
  | EKey.str s =>
    match alookup g.edges s with
    | some el => Except.ok el
    | none => Except.error (Err.keyError s)

/-- Insertion into a set of label pairs. -/
def pairInsert (acc : List (String × String)) (p : String × String) : List (String × String) :=
  if acc.any (fun y => y = p) then acc else acc ++ [p]

def pairSetRec (g : Graph) : List Dict → List (String × String) → Except Err (List (String × String))
  | [], acc => Except.ok acc
  | e :: rest, acc => do
    let ps ← g.get_edge_node_labels e
    pairSetRec g rest (ps.foldl pairInsert acc)

/-- Model of `Graph.get_source_and_target_labels(edge_label)` (lines 190-201): the
set of (source label, target label) pairs over the edges stored under the
given key. -/
def Graph.get_source_and_target_labels (g : Graph) (k : EKey) : Except Err (List (String × String)) := do
  let el ← g.edgesGet k
  pairSetRec g el []

/-- Model of `Graph.generate_ontology()` (lines 203-210).  The source iterates
`self.edges.items()` and calls `get_source_and_target_labels(edges)` with
the dict *value* (the edge list), not the label key. -/
def ontologyRec (g : Graph) :
    List (String × List Dict) → List (String × List (String × String)) →
    Except Err (List (String × List (String × String)))
  | [], acc => Except.ok acc
  | kv :: rest, acc => do
    let s ← g.get_source_and_target_labels (EKey.lst kv.2)
    ontologyRec g rest (acc ++ [(kv.1, s)])

def Graph.generate_ontology (g : Graph) : Except Err (List (String × List (String × String))) :=
  ontologyRec g g.edges []

/-- The `node_labels` keyword argument of `to_dict`: absent (`None`), a
single string, or a (non-string) collection of labels. -/
inductive NLArg where
  | nothing
  | str (s : String)
  | coll (ls : List String)
deriving DecidableEq

/-- The edge-implicated node-"label" set of `to_dict` (lines 219-220): the
union over the included edge labels of `get_source_and_target_labels`,
whose elements are label *pairs*. -/
def implicatedRec (g : Graph) : List String → List NLElem → Except Err (List NLElem)
  | [], acc => Except.ok acc
  | l :: rest, acc => do
    let ps ← g.get_source_and_target_labels (EKey.str l)
    implicatedRec g rest (ps.foldl (fun a p => nlInsert a (NLElem.pair p.1 p.2)) acc)

/-- Model of `Graph.to_dict(*args, node_labels=None)` (lines 212-234).  With a
(non-string) iterable `node_labels` the source executes
`included_node_labels += node_labels` on a set, which raises `TypeError`
(`set` supports no `+=`). -/
def Graph.to_dict (g : Graph) (args : List String) (node_labels : NLArg) : Except Err GraphData := do
  let included_edge_labels := if args.isEmpty then g.edges.map Prod.fst else args
  let included_node_labels ←
    match node_labels with
    | NLArg.str s =>
      if s = "all" then do
        let als ← g.get_all_node_labels
        Except.ok (als.map NLElem.str)
      else do
        let base ← implicatedRec g included_edge_labels []
        Except.ok (nlInsert base (NLElem.str s))
    | NLArg.nothing => implicatedRec g included_edge_labels []
    | NLArg.coll _ => do
      let _ ← implicatedRec g included_edge_labels []
      Except.error (Err.typeError "unsupported operand types for +=: set and list")
  let included_nodes ← g.filter_nodes_by_labels included_node_labels
  let included_edges := g.edges.filter (fun kv => included_edge_labels.contains kv.1)
  Except.ok ⟨included_nodes.map Prod.snd, (included_edges.map Prod.snd).flatten⟩

/-! ## Concrete sample data (tests/test_graph.py setUp) -/

/-- A node `data` dict with id and labels. -/
def nodeD (i : String) (ls : List String) : Dict :=
  [("id", Val.str i), ("labels", Val.lst ls)]

/-- An edge `data` dict with the three fixed fields. -/
def edgeD (s t l : String) : Dict :=
  [("source", Val.str s), ("target", Val.str t), ("label", Val.str l)]

/-- The sample interchange data of the repository's test suite. -/
def testData : GraphData :=
  ⟨[nodeD "A" ["class"], nodeD "B" ["class"], nodeD "A1" ["method"],
    nodeD "B1" ["method"], nodeD "C" ["class"], nodeD "C1" ["method"],
    nodeD "C2" ["method"]],
   [edgeD "A" "A1" "contains", edgeD "B" "B1" "contains",
    edgeD "A1" "B1" "invokes", edgeD "C" "C1" "contains",
    edgeD "C" "C2" "contains", edgeD "C1" "C2" "invokes"]⟩

/-- The Graph that `Graph.__init__` builds from `testData`. -/
def testGraph : Graph :=
  ⟨[("A", nodeD "A" ["class"]), ("B", nodeD "B" ["class"]),
    ("A1", nodeD "A1" ["method"]), ("B1", nodeD "B1" ["method"]),
    ("C", nodeD "C" ["class"]), ("C1", nodeD "C1" ["method"]),
    ("C2", nodeD "C2" ["method"])],
   [("contains", [edgeD "A" "A1" "contains", edgeD "B" "B1" "contains",
                  edgeD "C" "C1" "contains", edgeD "C" "C2" "contains"]),
    ("invokes", [edgeD "A1" "B1" "invokes", edgeD "C1" "C2" "invokes"])]⟩

/-! ## Model-side definitions (phrased from the specification's words, to be
compared against the source-translated functions above) -/

/-- The label `invert` gives an output edge, following the spec: the
(non-falsy) `new_label` if one is given, else `"inv_"` plus the original
label, with `"edge"` as the stand-in when the edge carries no label.  The
list branch is unreachable whenever `invertEdge` succeeds. -/
def invLabelModel (nl : Option String) (e : Dict) : String :=
  match nl with
  | some s => if s = "" then invFallbackModel e else s
  | none => invFallbackModel e
where
  invFallbackModel (e : Dict) : String :=
    "inv_" ++
      (match alookup e "label" with
       | some (Val.str t) => t
       | some (Val.lst _) => ""
       | none => "edge")

/-- The composed label, following the spec: `new_label` when a non-falsy
one is given, else the comma-joined concatenation of the two original
labels. -/
def composeLabelModel (nl : Option String) (e b : Dict) : String :=
  match nl with
  | some s => if s = "" then composeJoinModel e b else s
  | none => composeJoinModel e b
where
  composeJoinModel (e b : Dict) : String :=
    pyFmt ((alookup e "label").getD (Val.str "")) ++ "," ++
      pyFmt ((alookup b "label").getD (Val.str ""))

/-- Definition of `compose` as the spec describes it: a lookup keyed by `edges2` source
ids in which the last edge sharing a source id wins, then one output edge
per matching `edges1` edge, in `edges1` order. -/
def composeModel (edges1 edges2 : List Dict) (nl : Option String) : List Dict :=
  edges1.filterMap (fun e =>
    match alookup e "target" with
    | some (Val.str t) =>
      match edges2.reverse.find? (fun b => alookup b "source" == some (Val.str t)) with
      | some b =>
        some [("source", (alookup e "source").getD (Val.str "")),
              ("target", (alookup b "target").getD (Val.str "")),
              ("label", Val.str (composeLabelModel nl e b))]
      | none => none
    | _ => none)

/-- The label `compose` attaches when both operand lists are uniformly
labelled `a` (edges1) and `c` (edges2). -/
def composeLabelU (nl : Option String) (a c : String) : String :=
  match nl with
  | some s => if s = "" then a ++ "," ++ c else s
  | none => a ++ "," ++ c

/-! ## Well-formedness predicates (decidable, for hypotheses and witnesses) -/

/-- The key is present and holds a string. -/
def isStrAt (e : Dict) (k : String) : Bool :=
  match alookup e k with
  | some (Val.str _) => true
  | _ => false

/-- The key is present. -/
def hasKey (e : Dict) (k : String) : Bool :=
  (alookup e k).isSome

/-- The edge's `label` attribute is exactly the given string. -/
def labelIs (e : Dict) (l : String) : Bool :=
  alookup e "label" == some (Val.str l)

/-- A relation-algebra-friendly edge: labelled `l`, with string source and
target ids. -/
def wfU (l : String) (e : Dict) : Bool :=
  labelIs e l && isStrAt e "source" && isStrAt e "target"

/-- What `compose` needs of an `edges2` edge to avoid raising. -/
def wfE2 (e : Dict) : Bool :=
  isStrAt e "source" && hasKey e "target" && hasKey e "label"

/-- What `compose` needs of an `edges1` edge to avoid raising (the label
is only read when `new_label` is falsy). -/
def wfE1 (nl : Option String) (e : Dict) : Bool :=
  isStrAt e "target" && hasKey e "source" && (truthy nl || hasKey e "label")

/-- A node record `Graph.__init__` accepts: a string `id`. -/
def goodNode (nd : Dict) : Bool :=
  isStrAt nd "id"

/-- An edge record `Graph.__init__` accepts: a string `label`, or no
`label` and some `labels` value. -/
def goodEdge (e : Dict) : Bool :=
  match alookup e "label" with
  | some (Val.str _) => true
  | some (Val.lst _) => false
  | none => (alookup e "labels").isSome

/-- The edge-index entries are non-empty, uniformly labelled with their
key, and have string endpoints; every node record carries `labels`. -/
def wfGraph (g : Graph) : Bool :=
  g.edges.all (fun kv => !kv.2.isEmpty && kv.2.all (wfU kv.1)) &&
    g.nodes.all (fun kv => hasKey kv.2 "labels")

instance {ε α : Type} [DecidableEq ε] [DecidableEq α] : DecidableEq (Except ε α) := fun a b =>
  match a, b with
  | Except.ok x, Except.ok y => decidable_of_iff (x = y) (by simp)
  | Except.ok _, Except.error _ => isFalse (by simp)
  | Except.error _, Except.ok _ => isFalse (by simp)
  | Except.error e, Except.error f => decidable_of_iff (e = f) (by simp)

/-! ## Monad and association-list lemmas -/

@[simp]
theorem ebind_ok {ε α β : Type} (a : α) (f : α → Except ε β) :
    (Except.ok a >>= f) = f a := rfl

@[simp]
theorem ebind_error {ε α β : Type} (e : ε) (f : α → Except ε β) :
    ((Except.error e : Except ε α) >>= f) = Except.error e := rfl

@[simp]
theorem epure_eq {ε α : Type} (a : α) : (pure a : Except ε α) = Except.ok a := rfl

@[simp]
theorem isOk_ok {ε α : Type} (a : α) : (Except.ok a : Except ε α).isOk = true := rfl

@[simp]
theorem isOk_error {ε α : Type} (e : ε) : (Except.error e : Except ε α).isOk = false := rfl

@[simp]
theorem alookup_aset_self {α : Type} (d : List (String × α)) (k : String) (v : α) :
    alookup (aset d k v) k = some v := by
  induction d with
  | nil => simp [aset, alookup]
  | cons kv rest ih =>
    obtain ⟨k', v'⟩ := kv
    by_cases h : k' = k
    · simp [aset, h, alookup]
    · simp [aset, h, alookup, ih]

theorem alookup_aset_ne {α : Type} (d : List (String × α)) (k k' : String) (v : α)
    (h : k' ≠ k) : alookup (aset d k v) k' = alookup d k' := by
  induction d with
  | nil => simp [aset, alookup, Ne.symm h]
  | cons kv rest ih =>
    obtain ⟨k0, v0⟩ := kv
    by_cases h0 : k0 = k
    · subst h0
      simp [aset, alookup, Ne.symm h]
    · simp only [aset, if_neg h0, alookup]
      by_cases h1 : k0 = k'
      · simp [h1]
      · simp [h1, ih]

theorem aset_eq_self_of_alookup {α : Type} (d : List (String × α)) (k : String) (v : α)
    (h : alookup d k = some v) : aset d k v = d := by
  induction d with
  | nil => simp [alookup] at h
  | cons kv rest ih =>
    obtain ⟨k0, v0⟩ := kv
    by_cases h0 : k0 = k
    · subst h0
      simp [alookup] at h
      simp [aset, h]
    · simp [alookup, h0] at h
      simp [aset, h0, ih h]

theorem aset_absent {α : Type} (d : List (String × α)) (k : String) (v : α)
    (h : alookup d k = none) : aset d k v = d ++ [(k, v)] := by
  induction d with
  | nil => simp [aset]
  | cons kv rest ih =>
    obtain ⟨k0, v0⟩ := kv
    by_cases h0 : k0 = k
    · simp [alookup, h0] at h
    · simp [alookup, h0] at h
      simp [aset, h0, ih h]

theorem aset_aset {α : Type} (d : List (String × α)) (k : String) (v w : α) :
    aset (aset d k v) k w = aset d k w := by
  induction d with
  | nil => simp [aset]
  | cons kv rest ih =>
    obtain ⟨k0, v0⟩ := kv
    by_cases h0 : k0 = k
    · simp [aset, h0]
    · simp [aset, h0, ih]

theorem alookup_append {α : Type} (l1 l2 : List (String × α)) (k : String) :
    alookup (l1 ++ l2) k = (alookup l1 k).or (alookup l2 k) := by
  induction l1 with
  | nil => simp [alookup]
  | cons kv rest ih =>
    obtain ⟨k0, v0⟩ := kv
    by_cases h0 : k0 = k
    · simp [alookup, h0]
    · simp [alookup, h0, ih]

theorem aset_append_absent {α : Type} (l1 : List (String × α)) (k : String) (x y : α)
    (h : alookup l1 k = none) : aset (l1 ++ [(k, x)]) k y = l1 ++ [(k, y)] := by
  induction l1 with
  | nil => simp [aset]
  | cons kv rest ih =>
    obtain ⟨k0, v0⟩ := kv
    by_cases h0 : k0 = k
    · simp [alookup, h0] at h
    · simp [alookup, h0] at h
      simp [aset, h0, ih h]

theorem alookup_mem {α : Type} (d : List (String × α)) (k : String) (v : α)
    (h : alookup d k = some v) : (k, v) ∈ d := by
  induction d with
  | nil => simp [alookup] at h
  | cons kv rest ih =>
    obtain ⟨k0, v0⟩ := kv
    by_cases h0 : k0 = k
    · subst h0
      simp [alookup] at h
      simp [h]
    · simp [alookup, h0] at h
      simp [ih h]

theorem alookup_isSome_of_mem_keys {α : Type} (d : List (String × α)) (k : String)
    (h : k ∈ d.map Prod.fst) : ∃ v, alookup d k = some v := by
  induction d with
  | nil => simp at h
  | cons kv rest ih =>
    obtain ⟨k0, v0⟩ := kv
    by_cases h0 : k0 = k
    · exact ⟨v0, by simp [alookup, h0]⟩
    · simp only [List.map_cons, List.mem_cons] at h
      rcases h with h | h
      · exact absurd h.symm h0
      · obtain ⟨v, hv⟩ := ih h
        exact ⟨v, by simp [alookup, h0, hv]⟩

/-! ## Characterization of invert -/

theorem invertEdge_ok_shape (nl : Option String) (e e' : Dict)
    (h : invertEdge nl e = Except.ok e') :
    ∃ tv sv, alookup e "target" = some tv ∧ alookup e "source" = some sv ∧
      e' = aset (aset (aset e "source" tv) "target" sv) "label"
        (Val.str (invLabelModel nl e)) := by
  cases htv : alookup e "target" with
  | none => simp [invertEdge, dgetE, htv] at h
  | some tv =>
    cases hsv : alookup e "source" with
    | none => simp [invertEdge, dgetE, htv, hsv] at h
    | some sv =>
      refine ⟨tv, sv, rfl, rfl, ?_⟩
      cases nl with
      | none =>
        cases hl : alookup e "label" with
        | none =>
          simp only [invertEdge, dgetE, invertEdge.invertFallback, htv, hsv, hl,
            ebind_ok, ebind_error, epure_eq] at h
          cases h
          simp only [invLabelModel, invLabelModel.invFallbackModel, hl]
        | some v =>
          cases v with
          | str t =>
            simp only [invertEdge, dgetE, invertEdge.invertFallback, htv, hsv, hl,
              ebind_ok, ebind_error, epure_eq] at h
            cases h
            simp [invLabelModel, invLabelModel.invFallbackModel, hl]
          | lst xs =>
            simp [invertEdge, dgetE, invertEdge.invertFallback, htv, hsv, hl] at h
      | some s =>
        by_cases hs : s = ""
        · subst hs
          cases hl : alookup e "label" with
          | none =>
            simp only [invertEdge, dgetE, invertEdge.invertFallback, htv, hsv, hl,
              if_pos rfl, ebind_ok, ebind_error, epure_eq] at h
            cases h
            simp only [invLabelModel, invLabelModel.invFallbackModel, hl]
            rfl
          | some v =>
            cases v with
            | str t =>
              simp only [invertEdge, dgetE, invertEdge.invertFallback, htv, hsv, hl,
                if_pos rfl, ebind_ok, ebind_error, epure_eq] at h
              cases h
              simp [invLabelModel, invLabelModel.invFallbackModel, hl]
            | lst xs =>
              simp [invertEdge, dgetE, invertEdge.invertFallback, htv, hsv, hl] at h
        · simp only [invertEdge, dgetE, invertEdge.invertFallback, htv, hsv,
            if_neg hs, ebind_ok, ebind_error, epure_eq] at h
          cases h
          simp [invLabelModel, if_neg hs]

theorem invertEdge_ok_fields (nl : Option String) (e e' : Dict)
    (h : invertEdge nl e = Except.ok e') :
    alookup e' "source" = alookup e "target" ∧
    alookup e' "target" = alookup e "source" ∧
    alookup e' "label" = some (Val.str (invLabelModel nl e)) ∧
    ∀ k, k ≠ "source" → k ≠ "target" → k ≠ "label" → alookup e' k = alookup e k := by
  obtain ⟨tv, sv, htv, hsv, rfl⟩ := invertEdge_ok_shape nl e e' h
  refine ⟨?_, ?_, ?_, ?_⟩
  · rw [alookup_aset_ne _ _ _ _ (by decide), alookup_aset_ne _ _ _ _ (by decide),
      alookup_aset_self, htv]
  · rw [alookup_aset_ne _ _ _ _ (by decide), alookup_aset_self, hsv]
  · rw [alookup_aset_self]
  · intro k hks hkt hkl
    rw [alookup_aset_ne _ _ _ _ hkl, alookup_aset_ne _ _ _ _ hkt,
      alookup_aset_ne _ _ _ _ hks]

theorem invert_ok_forall (el : List Dict) (nl : Option String) (out : List Dict)
    (h : invert el nl = Except.ok out) :
    List.Forall₂ (fun e e' => invertEdge nl e = Except.ok e') el out := by
  induction el generalizing out with
  | nil =>
    simp only [invert] at h
    cases h
    exact List.Forall₂.nil
  | cons e rest ih =>
    simp only [invert] at h
    cases he : invertEdge nl e with
    | error err => rw [he] at h; simp at h
    | ok e' =>
      rw [he] at h
      simp only [ebind_ok] at h
      cases hr : invert rest nl with
      | error err => rw [hr] at h; simp at h
      | ok rest' =>
        rw [hr] at h
        simp only [ebind_ok, epure_eq] at h
        cases h
        exact List.Forall₂.cons he (ih rest' hr)

theorem isStrAt_spec (e : Dict) (k : String) (h : isStrAt e k = true) :
    ∃ s, alookup e k = some (Val.str s) := by
  unfold isStrAt at h
  split at h
  · next s heq => exact ⟨s, heq⟩
  · simp at h

theorem labelIs_spec (e : Dict) (l : String) (h : labelIs e l = true) :
    alookup e "label" = some (Val.str l) := by
  simpa [labelIs] using h

theorem wfU_spec (l : String) (e : Dict) (h : wfU l e = true) :
    alookup e "label" = some (Val.str l) ∧
    (∃ s, alookup e "source" = some (Val.str s)) ∧
    (∃ t, alookup e "target" = some (Val.str t)) := by
  simp only [wfU, Bool.and_eq_true] at h
  exact ⟨labelIs_spec e l h.1.1, isStrAt_spec e "source" h.1.2, isStrAt_spec e "target" h.2⟩

/-- Direct evaluation of `invertEdge` on an edge with all three fields
present. -/
theorem invertEdge_eval (e : Dict) (tv sv : Val) (a : String)
    (htv : alookup e "target" = some tv) (hsv : alookup e "source" = some sv)
    (hl : alookup e "label" = some (Val.str a)) :
    invertEdge none e = Except.ok
      (aset (aset (aset e "source" tv) "target" sv) "label" (Val.str ("inv_" ++ a))) := by
  simp [invertEdge, dgetE, invertEdge.invertFallback, htv, hsv, hl]

/-- Inverting a uniformly labelled, string-endpointed edge list succeeds
and yields a uniformly `inv_`-labelled, string-endpointed list of the same
length. -/
theorem invert_wf (a : String) (el : List Dict) (h : el.all (wfU a) = true) :
    ∃ out, invert el none = Except.ok out ∧
      out.all (wfU ("inv_" ++ a)) = true ∧ out.length = el.length := by
  induction el with
  | nil => exact ⟨[], rfl, rfl, rfl⟩
  | cons e rest ih =>
    simp only [List.all_cons, Bool.and_eq_true] at h
    obtain ⟨hl, hsv, htv⟩ := wfU_spec a e h.1
    obtain ⟨s, hs⟩ := hsv
    obtain ⟨t, ht⟩ := htv
    obtain ⟨out, hout, hwf, hlen⟩ := ih h.2
    refine ⟨aset (aset (aset e "source" (Val.str t)) "target" (Val.str s)) "label"
      (Val.str ("inv_" ++ a)) :: out, ?_, ?_, ?_⟩
    · simp only [invert, invertEdge_eval e (Val.str t) (Val.str s) a ht hs hl,
        ebind_ok, hout, epure_eq]
    · simp only [List.all_cons, Bool.and_eq_true]
      refine ⟨?_, hwf⟩
      simp only [wfU, labelIs, isStrAt, Bool.and_eq_true]
      refine ⟨⟨?_, ?_⟩, ?_⟩
      · rw [alookup_aset_self]; simp
      · rw [alookup_aset_ne _ _ _ _ (by decide), alookup_aset_ne _ _ _ _ (by decide),
          alookup_aset_self]
      · rw [alookup_aset_ne _ _ _ _ (by decide), alookup_aset_self]
    · simp [hlen]

/-! ## Characterization of compose -/

theorem composeStep_ok_some (m : List (String × (Val × Val))) (nl : Option String)
    (e : Dict) (d : Dict) (h : composeStep m nl e = Except.ok (some d)) :
    ∃ sv tv lab, d = [("source", sv), ("target", tv), ("label", Val.str lab)] := by
  cases htv : alookup e "target" with
  | none => simp [composeStep, dgetE, htv] at h
  | some tv =>
    cases tv with
    | lst xs => simp [composeStep, dgetE, htv] at h
    | str key =>
      cases hm : alookup m key with
      | none => simp [composeStep, dgetE, htv, hm] at h
      | some p =>
        obtain ⟨mt, ml⟩ := p
        cases hsv : alookup e "source" with
        | none => simp [composeStep, dgetE, htv, hm, hsv] at h
        | some sv =>
          cases nl with
          | none =>
            cases hl : alookup e "label" with
            | none => simp [composeStep, dgetE, composeJoin, htv, hm, hsv, hl] at h
            | some lv =>
              simp only [composeStep, dgetE, composeJoin, htv, hm, hsv, hl,
                ebind_ok, ebind_error, epure_eq] at h
              cases h
              exact ⟨sv, mt, _, rfl⟩
          | some s =>
            by_cases hs : s = ""
            · subst hs
              cases hl : alookup e "label" with
              | none => simp [composeStep, dgetE, composeJoin, htv, hm, hsv, hl] at h
              | some lv =>
                simp only [composeStep, dgetE, composeJoin, htv, hm, hsv, hl,
                  if_pos rfl, ebind_ok, ebind_error, epure_eq] at h
                cases h
                exact ⟨sv, mt, _, rfl⟩
            · simp only [composeStep, dgetE, composeJoin, htv, hm, hsv,
                if_neg hs, ebind_ok, ebind_error, epure_eq] at h
              cases h
              exact ⟨sv, mt, s, rfl⟩

theorem composeList_ok_mem (m : List (String × (Val × Val))) (nl : Option String)
    (el out : List Dict) (h : composeList m nl el = Except.ok out) (d : Dict)
    (hd : d ∈ out) :
    ∃ sv tv lab, d = [("source", sv), ("target", tv), ("label", Val.str lab)] := by
  induction el generalizing out with
  | nil =>
    simp only [composeList] at h
    cases h
    simp at hd
  | cons e rest ih =>
    simp only [composeList] at h
    cases ho : composeStep m nl e with
    | error err => rw [ho] at h; simp at h
    | ok o =>
      rw [ho] at h
      simp only [ebind_ok] at h
      cases hr : composeList m nl rest with
      | error err => rw [hr] at h; simp at h
      | ok rest' =>
        rw [hr] at h
        simp only [ebind_ok] at h
        cases o with
        | some d0 =>
          simp only [epure_eq] at h
          cases h
          rcases List.mem_cons.mp hd with h1 | h1
          · subst h1
            exact composeStep_ok_some m nl e d ho
          · exact ih _ hr h1
        | none =>
          simp only [epure_eq] at h
          cases h
          exact ih _ hr hd

/-- The mapping built from a uniformly labelled, string-endpointed edge
list maps every key to a string target and the uniform label. -/
theorem mkMapping_wf (c : String) (e2 : List Dict) (h : e2.all (wfU c) = true)
    (acc : List (String × (Val × Val)))
    (hacc : ∀ s tv lv, alookup acc s = some (tv, lv) →
      (∃ ts, tv = Val.str ts) ∧ lv = Val.str c) :
    ∃ m, mkMapping e2 acc = Except.ok m ∧
      ∀ s tv lv, alookup m s = some (tv, lv) →
        (∃ ts, tv = Val.str ts) ∧ lv = Val.str c := by
  induction e2 generalizing acc with
  | nil => exact ⟨acc, rfl, hacc⟩
  | cons b rest ih =>
    simp only [List.all_cons, Bool.and_eq_true] at h
    obtain ⟨hl, ⟨sb, hsb⟩, ⟨tb, htb⟩⟩ := wfU_spec c b h.1
    have step : mkMapping (b :: rest) acc =
        mkMapping rest (aset acc sb (Val.str tb, Val.str c)) := by
      simp [mkMapping, dgetE, hsb, htb, hl]
    rw [step]
    apply ih h.2
    intro s tv lv hs
    by_cases hss : s = sb
    · subst hss
      rw [alookup_aset_self] at hs
      cases hs
      exact ⟨⟨tb, rfl⟩, rfl⟩
    · rw [alookup_aset_ne _ _ _ _ hss] at hs
      exact hacc s tv lv hs

/-- One compose step on a uniformly labelled edge either skips (no match)
or emits a well-formed edge labelled `composeLabelU nl a c`. -/
theorem composeStep_wf (m : List (String × (Val × Val))) (a c : String)
    (nl : Option String) (e : Dict) (he : wfU a e = true)
    (hm : ∀ s tv lv, alookup m s = some (tv, lv) →
      (∃ ts, tv = Val.str ts) ∧ lv = Val.str c) :
    composeStep m nl e = Except.ok none ∨
    (∃ d, composeStep m nl e = Except.ok (some d) ∧
      wfU (composeLabelU nl a c) d = true) := by
  obtain ⟨hl, ⟨s0, hsv⟩, ⟨t0, htv⟩⟩ := wfU_spec a e he
  cases hm0 : alookup m t0 with
  | none =>
    left
    simp [composeStep, dgetE, htv, hm0]
  | some p =>
    obtain ⟨mt, ml⟩ := p
    obtain ⟨⟨ts, rfl⟩, rfl⟩ := hm t0 mt ml hm0
    right
    refine ⟨[("source", Val.str s0), ("target", Val.str ts),
      ("label", Val.str (composeLabelU nl a c))], ?_, ?_⟩
    · cases nl with
      | none =>
        simp [composeStep, dgetE, htv, hm0, hsv, composeJoin, hl, pyFmt, composeLabelU]
      | some s =>
        by_cases hs : s = ""
        · subst hs
          simp [composeStep, dgetE, htv, hm0, hsv, composeJoin, hl, pyFmt, composeLabelU]
        · simp [composeStep, dgetE, htv, hm0, hsv, if_neg hs, composeLabelU]
    · simp [wfU, labelIs, isStrAt, alookup]

/-- Composing uniformly labelled lists over such a mapping succeeds and
every output edge is well formed with the composed label. -/
theorem composeList_wf (m : List (String × (Val × Val))) (a c : String)
    (nl : Option String) (el : List Dict) (h : el.all (wfU a) = true)
    (hm : ∀ s tv lv, alookup m s = some (tv, lv) →
      (∃ ts, tv = Val.str ts) ∧ lv = Val.str c) :
    ∃ out, composeList m nl el = Except.ok out ∧
      out.all (wfU (composeLabelU nl a c)) = true ∧ out.length ≤ el.length := by
  induction el with
  | nil => exact ⟨[], rfl, rfl, Nat.le_refl 0⟩
  | cons e rest ih =>
    simp only [List.all_cons, Bool.and_eq_true] at h
    obtain ⟨out, hout, hwf, hlen⟩ := ih h.2
    rcases composeStep_wf m a c nl e h.1 hm with hstep | ⟨d, hstep, hdwf⟩
    · refine ⟨out, ?_, hwf, Nat.le_succ_of_le hlen⟩
      simp [composeList, hstep, hout]
    · refine ⟨d :: out, ?_, ?_, Nat.succ_le_succ hlen⟩
      · simp [composeList, hstep, hout]
      · simp [hdwf, hwf]

/-- Behaviour of `compose` on uniformly labelled well-formed lists. -/
theorem compose_wf (a c : String) (nl : Option String) (e1 e2 : List Dict)
    (h1 : e1.all (wfU a) = true) (h2 : e2.all (wfU c) = true) :
    ∃ out, compose e1 e2 nl = Except.ok out ∧
      out.all (wfU (composeLabelU nl a c)) = true ∧ out.length ≤ e1.length := by
  obtain ⟨m, hmk, hm⟩ := mkMapping_wf c e2 h2 [] (by intro s tv lv hs; simp [alookup] at hs)
  obtain ⟨out, hcl, hwf, hlen⟩ := composeList_wf m a c nl e1 h1 hm
  exact ⟨out, by simp [compose, hmk, hcl], hwf, hlen⟩

/-- Behaviour of `lift` on uniformly labelled well-formed lists: the output labels are
the comma-joined composites of the intermediate default labels. -/
theorem lift_wf (a c : String) (nl : Option String) (e1 e2 : List Dict)
    (h1 : e1.all (wfU a) = true) (h2 : e2.all (wfU c) = true) :
    ∃ out, lift e1 e2 nl = Except.ok out ∧
      out.all (wfU (composeLabelU nl (a ++ "," ++ c) ("inv_" ++ a))) = true := by
  obtain ⟨mid, hmid, hmidwf, _⟩ := compose_wf a c none e1 e2 h1 h2
  obtain ⟨iv, hiv, hivwf, _⟩ := invert_wf a e1 h1
  obtain ⟨out, hout, houtwf, _⟩ :=
    compose_wf (composeLabelU none a c) ("inv_" ++ a) nl mid iv hmidwf hivwf
  refine ⟨out, ?_, ?_⟩
  · simp [lift, hmid, hiv, hout]
  · simpa [composeLabelU] using houtwf

/-! ## String facts used for label/key comparisons -/

theorem underscore_append_ne_empty (a c : String) : a ++ "_" ++ c ≠ "" := by
  intro h
  have hd := congrArg List.length (congrArg String.data h)
  have h4 : ("_" : String).data = ['_'] := rfl
  have h0 : ("" : String).data = [] := rfl
  simp [String.data_append, List.length_append, h4, h0] at hd

theorem lifted_key_ne_composite (a c : String) :
    (a ++ "," ++ c) ++ "," ++ ("inv_" ++ a) ≠ "lifted_" ++ a ++ "_" ++ c := by
  intro h
  have hd := congrArg String.data h
  have h1 : ("," : String).data = [','] := rfl
  have h2 : ("inv_" : String).data = ['i', 'n', 'v', '_'] := rfl
  have h3 : ("lifted_" : String).data = ['l', 'i', 'f', 't', 'e', 'd', '_'] := rfl
  have h4 : ("_" : String).data = ['_'] := rfl
  simp only [String.data_append, h1, h2, h3, h4, List.append_assoc] at hd
  have hlen := congrArg List.length hd
  simp only [List.length_append, List.length_cons, List.length_nil] at hlen
  have ha2 : a.data.length = 2 := by omega
  obtain ⟨x, y, hxy⟩ := List.length_eq_two.mp ha2
  rw [hxy] at hd
  simp at hd

theorem all_wfU_label (L : String) (out : List Dict) (h : out.all (wfU L) = true) :
    ∀ e ∈ out, alookup e "label" = some (Val.str L) := by
  intro e he
  exact (wfU_spec L e (List.all_eq_true.mp h e he)).1

/-- Claim C9 (confirmed): on a graph whose edge lists under `l1` and `l2`
are well formed and uniformly labelled with their keys, `lift_edges` with
no `new_label` stores its result under `lifted_l1_l2` but the stored
edges' `label` attribute is the comma-joined composite of the
intermediate default labels, `l1,l2,inv_l1`, which never equals the key;
by contrast `invert_edges` and `compose_edges` (with no `new_label`)
store edges whose `label` attribute equals their edge-index key. -/
theorem C9_lift_edges_label_mismatch (g : Graph) (l1 l2 : String) (el1 el2 : List Dict)
    (h1 : alookup g.edges l1 = some el1) (h2 : alookup g.edges l2 = some el2)
    (hw1 : el1.all (wfU l1) = true) (hw2 : el2.all (wfU l2) = true) :
    (∃ g' lifted, g.lift_edges l1 l2 none = Except.ok g' ∧
      alookup g'.edges ("lifted_" ++ l1 ++ "_" ++ l2) = some lifted ∧
      (∀ e ∈ lifted, alookup e "label" =
        some (Val.str ((l1 ++ "," ++ l2) ++ "," ++ ("inv_" ++ l1)))) ∧
      (l1 ++ "," ++ l2) ++ "," ++ ("inv_" ++ l1) ≠ "lifted_" ++ l1 ++ "_" ++ l2) ∧
    (∃ gi ivl, g.invert_edges l1 none = Except.ok gi ∧
      alookup gi.edges ("inv_" ++ l1) = some ivl ∧
      ∀ e ∈ ivl, alookup e "label" = some (Val.str ("inv_" ++ l1))) ∧
    (∃ gc cmp, g.compose_edges l1 l2 none = Except.ok gc ∧
      alookup gc.edges (l1 ++ "_" ++ l2) = some cmp ∧
      ∀ e ∈ cmp, alookup e "label" = some (Val.str (l1 ++ "_" ++ l2))) := by
  refine ⟨?_, ?_, ?_⟩
  · obtain ⟨out, hout, houtwf⟩ := lift_wf l1 l2 none el1 el2 hw1 hw2
    have hkey : (composeLabelU none (l1 ++ "," ++ l2) ("inv_" ++ l1)) =
        (l1 ++ "," ++ l2) ++ "," ++ ("inv_" ++ l1) := by simp [composeLabelU]
    refine ⟨⟨g.nodes, aset g.edges ("lifted_" ++ l1 ++ "_" ++ l2) out⟩, out, ?_, ?_, ?_, ?_⟩
    · simp only [Graph.lift_edges, h1, h2, hout, ebind_ok, epure_eq]
    · exact alookup_aset_self _ _ _
    · exact all_wfU_label _ out (by rw [hkey] at houtwf; exact houtwf)
    · exact lifted_key_ne_composite l1 l2
  · obtain ⟨out, hout, houtwf, _⟩ := invert_wf l1 el1 hw1
    refine ⟨⟨g.nodes, aset g.edges ("inv_" ++ l1) out⟩, out, ?_, ?_, ?_⟩
    · simp only [Graph.invert_edges, h1, hout, ebind_ok, epure_eq]
    · exact alookup_aset_self _ _ _
    · exact all_wfU_label _ out houtwf
  · obtain ⟨out, hout, houtwf, _⟩ :=
      compose_wf l1 l2 (some (l1 ++ "_" ++ l2)) el1 el2 hw1 hw2
    have hkey : composeLabelU (some (l1 ++ "_" ++ l2)) l1 l2 = l1 ++ "_" ++ l2 := by
      simp [composeLabelU, if_neg (underscore_append_ne_empty l1 l2)]
    refine ⟨⟨g.nodes, aset g.edges (l1 ++ "_" ++ l2) out⟩, out, ?_, ?_, ?_⟩
    · simp only [Graph.compose_edges, h1, h2, hout, ebind_ok, epure_eq]
    · exact alookup_aset_self _ _ _
    · exact all_wfU_label _ out (by rw [hkey] at houtwf; exact houtwf)

/-- Witness for C9 on the test-suite graph: the hypotheses hold for
`contains`/`invokes` and the conclusion follows by applying the claim
theorem there. -/
theorem C9_lift_edges_label_mismatch_witness :
    (alookup testGraph.edges "contains" =
        some [edgeD "A" "A1" "contains", edgeD "B" "B1" "contains",
          edgeD "C" "C1" "contains", edgeD "C" "C2" "contains"]) ∧
    (∃ g' lifted, testGraph.lift_edges "contains" "invokes" none = Except.ok g' ∧
      alookup g'.edges ("lifted_" ++ "contains" ++ "_" ++ "invokes") = some lifted ∧
      (∀ e ∈ lifted, alookup e "label" =
        some (Val.str (("contains" ++ "," ++ "invokes") ++ "," ++ ("inv_" ++ "contains")))) ∧
      ("contains" ++ "," ++ "invokes") ++ "," ++ ("inv_" ++ "contains") ≠
        "lifted_" ++ "contains" ++ "_" ++ "invokes") ∧
    (∃ gi ivl, testGraph.invert_edges "contains" none = Except.ok gi ∧
      alookup gi.edges ("inv_" ++ "contains") = some ivl ∧
      ∀ e ∈ ivl, alookup e "label" = some (Val.str ("inv_" ++ "contains"))) := by
  have h := C9_lift_edges_label_mismatch testGraph "contains" "invokes"
    [edgeD "A" "A1" "contains", edgeD "B" "B1" "contains",
      edgeD "C" "C1" "contains", edgeD "C" "C2" "contains"]
    [edgeD "A1" "B1" "invokes", edgeD "C1" "C2" "invokes"]
    (by decide) (by decide) (by decide) (by decide)
  exact ⟨by decide, h.1, h.2.1⟩

/-- Claim C7 (amended: the label is `new_label` only when a non-empty
`new_label` is given — Python treats an empty string as falsy, so
`invert(edges, "")` falls back to prefixing): `invert` returns one output
edge per input edge, in input order, with source and target swapped, the
label given by `invLabelModel` (`inv_` + original label, `inv_edge` when
the edge carries no label), and all other attributes unchanged. -/
theorem C7_invert_spec (el : List Dict) (nl : Option String) (out : List Dict)
    (h : invert el nl = Except.ok out) :
    out.length = el.length ∧
    List.Forall₂ (fun e e' =>
      alookup e' "source" = alookup e "target" ∧
      alookup e' "target" = alookup e "source" ∧
      alookup e' "label" = some (Val.str (invLabelModel nl e)) ∧
      ∀ k, k ≠ "source" → k ≠ "target" → k ≠ "label" →
        alookup e' k = alookup e k) el out := by
  have hf := invert_ok_forall el nl out h
  exact ⟨hf.length_eq.symm, hf.imp (fun e e' he => invertEdge_ok_fields nl e e' he)⟩

/-- Counterexample to C7 as stated: the empty string is a given
`new_label`, yet the output label is the `inv_`-prefixed original, not the
empty string. -/
theorem C7_invert_counterexample :
    invert [edgeD "A" "B" "contains"] (some "") =
      Except.ok [[("source", Val.str "B"), ("target", Val.str "A"),
        ("label", Val.str "inv_contains")]] ∧
    Val.str "inv_contains" ≠ Val.str "" := ⟨rfl, by decide⟩

/-- Witness for C7 at a concrete input. -/
theorem C7_invert_spec_witness :
    invert [edgeD "A" "B" "contains"] (some "x") =
      Except.ok [[("source", Val.str "B"), ("target", Val.str "A"),
        ("label", Val.str "x")]] ∧
    ([[("source", Val.str "B"), ("target", Val.str "A"), ("label", Val.str "x")]].length =
      [edgeD "A" "B" "contains"].length ∧
    List.Forall₂ (fun e e' =>
      alookup e' "source" = alookup e "target" ∧
      alookup e' "target" = alookup e "source" ∧
      alookup e' "label" = some (Val.str (invLabelModel (some "x") e)) ∧
      ∀ k, k ≠ "source" → k ≠ "target" → k ≠ "label" →
        alookup e' k = alookup e k)
      [edgeD "A" "B" "contains"]
      [[("source", Val.str "B"), ("target", Val.str "A"), ("label", Val.str "x")]]) :=
  ⟨rfl, C7_invert_spec _ _ _ rfl⟩

/-- Claim C4 (amended: extra attributes survive `invert` untouched, but
`compose` emits edges carrying only the three fixed fields, dropping all
extra attributes of both input edges). -/
theorem C4_extra_attributes :
    (∀ el nl out, invert el nl = Except.ok out →
      List.Forall₂ (fun e e' => ∀ k, k ≠ "source" → k ≠ "target" → k ≠ "label" →
        alookup e' k = alookup e k) el out) ∧
    (∀ e1 e2 nl out, compose e1 e2 nl = Except.ok out →
      ∀ d ∈ out, d.map Prod.fst = ["source", "target", "label"]) := by
  constructor
  · intro el nl out h
    exact (invert_ok_forall el nl out h).imp
      (fun e e' he => (invertEdge_ok_fields nl e e' he).2.2.2)
  · intro e1 e2 nl out h d hd
    cases hm : mkMapping e2 [] with
    | error err => simp [compose, hm] at h
    | ok m =>
      simp only [compose, hm, ebind_ok] at h
      obtain ⟨sv, tv, lab, rfl⟩ := composeList_ok_mem m nl e1 out h d hd
      simp

/-- Counterexample to C4 as stated: an extra attribute `w` on the first
input edge does not appear on the composed output edge. -/
theorem C4_extra_attributes_counterexample :
    compose
      [[("source", Val.str "A"), ("target", Val.str "B"),
        ("label", Val.str "x"), ("w", Val.str "8")]]
      [[("source", Val.str "B"), ("target", Val.str "C"),
        ("label", Val.str "y"), ("u", Val.str "9")]] none =
      Except.ok [[("source", Val.str "A"), ("target", Val.str "C"),
        ("label", Val.str "x,y")]] ∧
    alookup [("source", Val.str "A"), ("target", Val.str "C"),
      ("label", Val.str "x,y")] "w" = none ∧
    alookup [("source", Val.str "A"), ("target", Val.str "B"),
      ("label", Val.str "x"), ("w", Val.str "8")] "w" = some (Val.str "8") :=
  ⟨rfl, rfl, rfl⟩

/-- Witness for C4 at concrete inputs. -/
theorem C4_extra_attributes_witness :
    invert [[("source", Val.str "A"), ("target", Val.str "B"),
      ("label", Val.str "x"), ("w", Val.str "8")]] none =
      Except.ok [[("source", Val.str "B"), ("target", Val.str "A"),
        ("label", Val.str "inv_x"), ("w", Val.str "8")]] ∧
    List.Forall₂ (fun e e' => ∀ k, k ≠ "source" → k ≠ "target" → k ≠ "label" →
        alookup e' k = alookup e k)
      [[("source", Val.str "A"), ("target", Val.str "B"),
        ("label", Val.str "x"), ("w", Val.str "8")]]
      [[("source", Val.str "B"), ("target", Val.str "A"),
        ("label", Val.str "inv_x"), ("w", Val.str "8")]] ∧
    (∀ d ∈ [[("source", Val.str "A"), ("target", Val.str "C"),
        ("label", Val.str "x,y")]], d.map Prod.fst = ["source", "target", "label"]) :=
  ⟨rfl, C4_extra_attributes.1 _ none _ rfl,
    C4_extra_attributes.2
      [[("source", Val.str "A"), ("target", Val.str "B"),
        ("label", Val.str "x"), ("w", Val.str "8")]]
      [[("source", Val.str "B"), ("target", Val.str "C"),
        ("label", Val.str "y"), ("u", Val.str "9")]] none _ rfl⟩

/-- Claim C6 (confirmed): `lift` is definitionally
`compose(compose(edges1, edges2), invert(edges1), new_label)`, and on the
test-suite graph `lift_edges("contains", "invokes", "calls")` stores under
`calls` exactly the edge A to B and the self-loop C to C. -/
theorem C6_lift_composition :
    (∀ e1 e2 nl, lift e1 e2 nl = do
      let c ← compose e1 e2 none
      let iv ← invert e1 none
      compose c iv nl) ∧
    ((Graph.init testData).bind
        (fun g => g.lift_edges "contains" "invokes" (some "calls"))).map
        (fun g' => alookup g'.edges "calls") =
      Except.ok (some [edgeD "A" "B" "calls", edgeD "C" "C" "calls"]) :=
  ⟨fun _ _ _ => rfl, rfl⟩

theorem nodeLabelsOf_str_ok (g : Graph) (t : String) :
    ∃ ls, nodeLabelsOf g (Val.str t) = Except.ok ls := by
  cases hnd : alookup g.nodes t with
  | none => exact ⟨[], by simp [nodeLabelsOf, hnd]⟩
  | some nd =>
    cases hlv : alookup nd "labels" with
    | none => exact ⟨[], by simp [nodeLabelsOf, hnd, hlv]⟩
    | some lv => exact ⟨iterVal lv, by simp [nodeLabelsOf, hnd, hlv]⟩

theorem flatMap_const_nil (l : List String) :
    (l.flatMap (fun _ => ([] : List (String × String)))) = [] := by
  induction l with
  | nil => rfl
  | cons x xs ih =>
    simp only [List.flatMap_cons, List.nil_append]
    exact ih

/-- Claim C10 (confirmed): an edge whose source id or target id is absent
from the node index yields the empty pair list from
`get_edge_node_labels`, without raising. -/
theorem C10_dangling_edge (g : Graph) (e : Dict) (s t : String)
    (hs : alookup e "source" = some (Val.str s))
    (ht : alookup e "target" = some (Val.str t))
    (hmiss : alookup g.nodes s = none ∨ alookup g.nodes t = none) :
    g.get_edge_node_labels e = Except.ok [] := by
  rcases hmiss with hm | hm
  · have hsrc : nodeLabelsOf g (Val.str s) = Except.ok [] := by simp [nodeLabelsOf, hm]
    obtain ⟨ls, hls⟩ := nodeLabelsOf_str_ok g t
    simp [Graph.get_edge_node_labels, dgetE, hs, ht, hsrc, hls]
  · have htgt : nodeLabelsOf g (Val.str t) = Except.ok [] := by simp [nodeLabelsOf, hm]
    obtain ⟨ls, hls⟩ := nodeLabelsOf_str_ok g s
    simp [Graph.get_edge_node_labels, dgetE, hs, ht, hls, htgt, flatMap_const_nil]

/-- Witness for C10: a dangling edge on the test-suite graph. -/
theorem C10_dangling_edge_witness :
    alookup testGraph.nodes "Z" = none ∧
    testGraph.get_edge_node_labels (edgeD "A" "Z" "x") = Except.ok [] :=
  ⟨rfl, C10_dangling_edge testGraph (edgeD "A" "Z" "x") "A" "Z" rfl rfl (Or.inr rfl)⟩

/-! ## Constructor behaviour -/

theorem buildNodes_err (l : List Dict) (nd : Dict) (hmem : nd ∈ l)
    (hid : alookup nd "id" = none) (acc : List (String × Dict)) :
    (buildNodes l acc).isOk = false := by
  induction l generalizing acc with
  | nil => simp at hmem
  | cons n rest ih =>
    rcases List.mem_cons.mp hmem with h | h
    · subst h
      simp [buildNodes, dgetE, hid]
    · cases hd : alookup n "id" with
      | none => simp [buildNodes, dgetE, hd]
      | some idv =>
        cases idv with
        | str s => simp [buildNodes, dgetE, hd, ih h]
        | lst xs => simp [buildNodes, dgetE, hd]

theorem buildEdges_err (l : List Dict) (e : Dict) (hmem : e ∈ l)
    (hl1 : alookup e "label" = none) (hl2 : alookup e "labels" = none)
    (acc : List (String × List Dict)) :
    (buildEdges l acc).isOk = false := by
  induction l generalizing acc with
  | nil => simp at hmem
  | cons e0 rest ih =>
    rcases List.mem_cons.mp hmem with h | h
    · subst h
      simp [buildEdges, addEdge, edgeLabel, hl1, hl2]
    · cases ha : addEdge acc e0 with
      | error err => simp [buildEdges, ha]
      | ok acc' => simp [buildEdges, ha, ih h]

theorem buildNodes_ok (l : List Dict) (h : ∀ nd ∈ l, goodNode nd = true)
    (acc : List (String × Dict)) : ∃ ns, buildNodes l acc = Except.ok ns := by
  induction l generalizing acc with
  | nil => exact ⟨acc, rfl⟩
  | cons n rest ih =>
    obtain ⟨s, hs⟩ := isStrAt_spec n "id" (h n (List.mem_cons_self n rest))
    obtain ⟨ns, hns⟩ := ih (fun nd hnd => h nd (List.mem_cons_of_mem n hnd)) (aset acc s n)
    exact ⟨ns, by simp [buildNodes, dgetE, hs, hns]⟩

theorem buildEdges_ok (l : List Dict) (h : ∀ e ∈ l, goodEdge e = true)
    (acc : List (String × List Dict)) : ∃ es, buildEdges l acc = Except.ok es := by
  induction l generalizing acc with
  | nil => exact ⟨acc, rfl⟩
  | cons e rest ih =>
    have hge := h e (List.mem_cons_self e rest)
    have hrest := fun e0 he0 => h e0 (List.mem_cons_of_mem e he0)
    unfold goodEdge at hge
    have hstep : ∃ acc', addEdge acc e = Except.ok acc' := by
      cases hl : alookup e "label" with
      | some v =>
        rw [hl] at hge
        cases v with
        | str s =>
          cases hacc : alookup acc s with
          | some el => exact ⟨aset acc s (el ++ [e]), by simp [addEdge, edgeLabel, hl, hacc]⟩
          | none => exact ⟨aset acc s [e], by simp [addEdge, edgeLabel, hl, hacc]⟩
        | lst xs => simp at hge
      | none =>
        rw [hl] at hge
        cases hls : alookup e "labels" with
        | none => rw [hls] at hge; simp at hge
        | some v =>
          cases hacc : alookup acc (joinComma v) with
          | some el =>
            exact ⟨aset acc (joinComma v) (el ++ [aset e "label" (Val.str (joinComma v))]),
              by simp [addEdge, edgeLabel, hl, hls, hacc]⟩
          | none =>
            exact ⟨aset acc (joinComma v) [aset e "label" (Val.str (joinComma v))],
              by simp [addEdge, edgeLabel, hl, hls, hacc]⟩
    obtain ⟨acc', hacc'⟩ := hstep
    obtain ⟨es, hes⟩ := ih hrest acc'
    exact ⟨es, by simp [buildEdges, hacc', hes]⟩

/-- Claim C2 (amended: construction fails fast only for a node record
missing `id` or an edge record missing both `label` and `labels`; a node
missing `labels` or an edge missing `source`/`target` is accepted at
construction time, the errors surfacing only in later label queries.  A
failed construction yields no Graph value at all, so no partially built
index escapes). -/
theorem C2_construction_failfast :
    (∀ gd nd, nd ∈ gd.nodes → alookup nd "id" = none →
      (Graph.init gd).isOk = false) ∧
    (∀ gd e, e ∈ gd.edges → alookup e "label" = none → alookup e "labels" = none →
      (Graph.init gd).isOk = false) ∧
    (∀ gd : GraphData, (∀ nd ∈ gd.nodes, goodNode nd = true) →
      (∀ e ∈ gd.edges, goodEdge e = true) → (Graph.init gd).isOk = true) := by
  refine ⟨?_, ?_, ?_⟩
  · intro gd nd hmem hid
    cases hbn : buildNodes gd.nodes [] with
    | error err => simp [Graph.init, hbn]
    | ok ns =>
      have := buildNodes_err gd.nodes nd hmem hid []
      rw [hbn] at this
      simp at this
  · intro gd e hmem hl1 hl2
    cases hbn : buildNodes gd.nodes [] with
    | error err => simp [Graph.init, hbn]
    | ok ns =>
      cases hbe : buildEdges gd.edges [] with
      | error err => simp [Graph.init, hbn, hbe]
      | ok es =>
        have := buildEdges_err gd.edges e hmem hl1 hl2 []
        rw [hbe] at this
        simp at this
  · intro gd hn he
    obtain ⟨ns, hns⟩ := buildNodes_ok gd.nodes hn []
    obtain ⟨es, hes⟩ := buildEdges_ok gd.edges he []
    simp [Graph.init, hns, hes]

/-- Counterexample to C2 as stated: a node record with no `labels` and an
edge record with no `source`/`target` are malformed in the claim's sense,
yet construction succeeds and indexes both. -/
theorem C2_construction_counterexample :
    alookup [("id", Val.str "X")] "labels" = none ∧
    alookup [("label", Val.str "e")] "source" = none ∧
    alookup [("label", Val.str "e")] "target" = none ∧
    Graph.init ⟨[[("id", Val.str "X")]], [[("label", Val.str "e")]]⟩ =
      Except.ok ⟨[("X", [("id", Val.str "X")])], [("e", [[("label", Val.str "e")]])]⟩ :=
  ⟨rfl, rfl, rfl, rfl⟩

/-- Witness for C2: the fail-fast cases actually fire, and the test-suite
data constructs. -/
theorem C2_construction_failfast_witness :
    (Graph.init ⟨[[("labels", Val.lst ["a"])]], []⟩).isOk = false ∧
    (Graph.init ⟨[], [[("source", Val.str "A"), ("target", Val.str "B")]]⟩).isOk = false ∧
    (Graph.init testData).isOk = true :=
  ⟨C2_construction_failfast.1 _ [("labels", Val.lst ["a"])] (by decide) rfl,
   C2_construction_failfast.2.1 _ [("source", Val.str "A"), ("target", Val.str "B")]
     (by decide) rfl rfl,
   C2_construction_failfast.2.2 testData (by decide) (by decide)⟩

/-- Claim C1 (code bug): `generate_ontology` passes each entry's edge
list, not its label, to `get_source_and_target_labels`, which indexes
`self.edges` with it; hashing a list raises `TypeError`, so the method
raises on every graph with a non-empty edge index — in particular on the
test-suite graph, where the repository's own `test_generate_ontology`
expects the ontology mapping instead. -/
theorem C1_generate_ontology_raises :
    ((Graph.init testData).bind Graph.generate_ontology) =
      Except.error (Err.typeError "unhashable type: list") ∧
    (∀ g : Graph, g.generate_ontology.isOk = true → g.edges = []) := by
  refine ⟨rfl, ?_⟩
  intro g h
  cases hge : g.edges with
  | nil => rfl
  | cons kv rest =>
    exfalso
    unfold Graph.generate_ontology at h
    rw [hge] at h
    simp [ontologyRec, Graph.get_source_and_target_labels, Graph.edgesGet] at h

/-- Witness for C1's universal part at the empty graph. -/
theorem C1_generate_ontology_raises_witness :
    (Graph.mk [] [] : Graph).edges = [] :=
  C1_generate_ontology_raises.2 (Graph.mk [] []) rfl

/-- Claim C3 (code bug): `to_dict` with a (non-string) collection bound to
`node_labels` executes `included_node_labels += node_labels` on a set,
which raises `TypeError`; the labels are never unioned in and no view is
returned. -/
theorem C3_to_dict_collection_raises :
    ((Graph.init testData).bind (fun g => g.to_dict [] (NLArg.coll ["class"]))) =
      Except.error (Err.typeError "unsupported operand types for +=: set and list") := rfl

/-! ## Claim C5: compose against its specification model -/

theorem wfE2_spec (b : Dict) (h : wfE2 b = true) :
    (∃ sb, alookup b "source" = some (Val.str sb)) ∧
    (∃ tv, alookup b "target" = some tv) ∧ (∃ lv, alookup b "label" = some lv) := by
  simp only [wfE2, hasKey, Bool.and_eq_true, Option.isSome_iff_exists] at h
  exact ⟨isStrAt_spec _ _ h.1.1, h.1.2, h.2⟩

theorem wfE1_spec (nl : Option String) (e : Dict) (h : wfE1 nl e = true) :
    (∃ t, alookup e "target" = some (Val.str t)) ∧
    (∃ sv, alookup e "source" = some sv) ∧
    (truthy nl = true ∨ ∃ lv, alookup e "label" = some lv) := by
  simp only [wfE1, hasKey, Bool.and_eq_true, Bool.or_eq_true, Option.isSome_iff_exists] at h
  exact ⟨isStrAt_spec _ _ h.1.1, h.1.2, h.2⟩

/-- The mapping that `compose` builds is characterized by a
last-match-wins search over `edges2`: looking up `s` finds the last edge
of `edges2` whose source is `s`. -/
theorem mkMapping_lookup (e2 : List Dict) (h : ∀ b ∈ e2, wfE2 b = true)
    (acc : List (String × (Val × Val))) :
    ∃ m, mkMapping e2 acc = Except.ok m ∧
      ∀ s, alookup m s =
        (match e2.reverse.find? (fun b => alookup b "source" == some (Val.str s)) with
         | some b => some ((alookup b "target").getD (Val.str ""),
                           (alookup b "label").getD (Val.str ""))
         | none => alookup acc s) := by
  induction e2 generalizing acc with
  | nil => exact ⟨acc, rfl, fun s => by simp⟩
  | cons b rest ih =>
    obtain ⟨⟨sb, hsb⟩, ⟨tv, htv⟩, ⟨lv, hlv⟩⟩ := wfE2_spec b (h b (List.mem_cons_self b rest))
    have step : mkMapping (b :: rest) acc = mkMapping rest (aset acc sb (tv, lv)) := by
      simp [mkMapping, dgetE, hsb, htv, hlv]
    obtain ⟨m, hm, hchar⟩ :=
      ih (fun b0 hb0 => h b0 (List.mem_cons_of_mem b hb0)) (aset acc sb (tv, lv))
    refine ⟨m, by rw [step]; exact hm, ?_⟩
    intro s
    rw [hchar s]
    have hrev : (b :: rest).reverse = rest.reverse ++ [b] := by simp
    rw [hrev, List.find?_append]
    cases hfind : rest.reverse.find? (fun b0 => alookup b0 "source" == some (Val.str s)) with
    | some b0 => simp [Option.or]
    | none =>
      by_cases hss : s = sb
      · subst hss
        have hp : (alookup b "source" == some (Val.str s)) = true := by simp [hsb]
        simp [Option.or, List.find?, hp, alookup_aset_self, htv, hlv]
      · have hp : (alookup b "source" == some (Val.str s)) = false := by
          simp [hsb, Ne.symm hss]
        simp [Option.or, List.find?, hp, alookup_aset_ne _ _ _ _ hss]


/-- The compose loop over a characterized mapping computes exactly the
spec-side `composeModel`. -/
theorem composeList_model (e2 : List Dict) (m : List (String × (Val × Val)))
    (nl : Option String)
    (hchar : ∀ s, alookup m s =
      (match e2.reverse.find? (fun b => alookup b "source" == some (Val.str s)) with
       | some b => some ((alookup b "target").getD (Val.str ""),
                         (alookup b "label").getD (Val.str ""))
       | none => none))
    (e1 : List Dict) (hw1 : ∀ e ∈ e1, wfE1 nl e = true) :
    composeList m nl e1 = Except.ok (composeModel e1 e2 nl) := by
  induction e1 with
  | nil => rfl
  | cons e rest ih =>
    obtain ⟨⟨t, ht⟩, ⟨sv, hsv⟩, hlab⟩ := wfE1_spec nl e (hw1 e (List.mem_cons_self e rest))
    have ihr := ih (fun e0 he0 => hw1 e0 (List.mem_cons_of_mem e he0))
    cases hfind : e2.reverse.find? (fun b => alookup b "source" == some (Val.str t)) with
    | none =>
      have hmt : alookup m t = none := by rw [hchar t, hfind]
      have hstep : composeStep m nl e = Except.ok none := by
        simp [composeStep, dgetE, ht, hmt]
      simp [composeList, hstep, ihr, composeModel, ht, hfind]
    | some b =>
      have hmt : alookup m t = some ((alookup b "target").getD (Val.str ""),
          (alookup b "label").getD (Val.str "")) := by rw [hchar t, hfind]
      have hstep : composeStep m nl e = Except.ok (some
          [("source", sv), ("target", (alookup b "target").getD (Val.str "")),
           ("label", Val.str (composeLabelModel nl e b))]) := by
        cases nl with
        | none =>
          obtain ⟨lv, hlv⟩ := hlab.resolve_left (by simp [truthy])
          simp [composeStep, dgetE, ht, hmt, hsv, composeJoin, hlv,
            composeLabelModel, composeLabelModel.composeJoinModel]
        | some s =>
          by_cases hs : s = ""
          · subst hs
            obtain ⟨lv, hlv⟩ := hlab.resolve_left (by simp [truthy])
            simp [composeStep, dgetE, ht, hmt, hsv, composeJoin, hlv,
              composeLabelModel, composeLabelModel.composeJoinModel]
          · simp [composeStep, dgetE, ht, hmt, hsv, if_neg hs,
              composeLabelModel, if_neg hs]
      have hmodel : composeModel (e :: rest) e2 nl =
          [("source", (alookup e "source").getD (Val.str "")),
           ("target", (alookup b "target").getD (Val.str "")),
           ("label", Val.str (composeLabelModel nl e b))] :: composeModel rest e2 nl := by
        simp [composeModel, ht, hfind]
      rw [hmodel]
      have hsv2 : (alookup e "source").getD (Val.str "") = sv := by simp [hsv]
      simp [composeList, hstep, ihr, hsv2]

/-- Claim C5 (amended: the output label is `new_label` only when a
non-empty `new_label` is given; with `new_label=""` the comma-join is
used): `compose` builds a last-write-wins lookup from `edges2` source ids
and emits, in `edges1` order, one edge per matched `edges1` edge, so the
result is `composeModel` and its length is at most `len(edges1)`. -/
theorem C5_compose_spec (e1 e2 : List Dict) (nl : Option String)
    (hw1 : ∀ e ∈ e1, wfE1 nl e = true) (hw2 : ∀ b ∈ e2, wfE2 b = true) :
    compose e1 e2 nl = Except.ok (composeModel e1 e2 nl) ∧
    (composeModel e1 e2 nl).length ≤ e1.length := by
  obtain ⟨m, hm, hchar⟩ := mkMapping_lookup e2 hw2 []
  have hchar0 : ∀ s, alookup m s =
      (match e2.reverse.find? (fun b => alookup b "source" == some (Val.str s)) with
       | some b => some ((alookup b "target").getD (Val.str ""),
                         (alookup b "label").getD (Val.str ""))
       | none => none) := by
    intro s
    rw [hchar s]
    cases e2.reverse.find? (fun b => alookup b "source" == some (Val.str s)) <;> simp [alookup]
  constructor
  · simp only [compose, hm, ebind_ok]
    exact composeList_model e2 m nl hchar0 e1 hw1
  · exact List.length_filterMap_le _ _


/-- Counterexample to C5 as stated: the empty string is a given
`new_label`, yet the emitted label is the comma-join, not the empty
string. -/
theorem C5_compose_spec_counterexample :
    compose [edgeD "A" "B" "x"] [edgeD "B" "C" "y"] (some "") =
      Except.ok [[("source", Val.str "A"), ("target", Val.str "C"),
        ("label", Val.str "x,y")]] ∧
    ("x,y" : String) ≠ "" := ⟨rfl, by decide⟩

/-- Witness for C5 at a concrete input exercising last-write-wins (two
edges2 entries share source B; the second survives) and a skipped edges1
entry. -/
theorem C5_compose_spec_witness :
    compose [edgeD "A" "B" "x", edgeD "Q" "Z" "q"]
        [edgeD "B" "C1" "y", edgeD "B" "C2" "y2"] none =
      Except.ok (composeModel [edgeD "A" "B" "x", edgeD "Q" "Z" "q"]
        [edgeD "B" "C1" "y", edgeD "B" "C2" "y2"] none) ∧
    (composeModel [edgeD "A" "B" "x", edgeD "Q" "Z" "q"]
      [edgeD "B" "C1" "y", edgeD "B" "C2" "y2"] none).length ≤
      [edgeD "A" "B" "x", edgeD "Q" "Z" "q"].length :=
  C5_compose_spec _ _ none (by decide) (by decide)

/-! ## Claim C8: the to_dict/construction round trip -/

theorem filterNodes_pairs (labels : List NLElem)
    (hp : ∀ x ∈ labels, ∃ a b, x = NLElem.pair a b)
    (nodes : List (String × Dict))
    (hn : ∀ kv ∈ nodes, (alookup kv.2 "labels").isSome = true)
    (acc : List (String × Dict)) :
    filterNodesRec labels nodes acc = Except.ok acc := by
  induction nodes generalizing acc with
  | nil => rfl
  | cons kv rest ih =>
    obtain ⟨lv, hlv⟩ := Option.isSome_iff_exists.mp (hn kv (List.mem_cons_self kv rest))
    have hfalse : ∀ l, labelInNL l labels = false := by
      intro l
      unfold labelInNL
      rw [List.any_eq_false]
      intro x hx
      obtain ⟨a, b, rfl⟩ := hp x hx
      simp
    have hany : (iterVal lv).any (fun l => labelInNL l labels) = false := by
      rw [List.any_eq_false]
      intro l _
      simp [hfalse l]
    have hrest := ih (fun kv0 h0 => hn kv0 (List.mem_cons_of_mem kv h0)) acc
    rw [show filterNodesRec labels (kv :: rest) acc = filterNodesRec labels rest acc by
      simp only [filterNodesRec, dgetE, hlv, ebind_ok, hany, Bool.false_eq_true, if_false]]
    exact hrest

theorem get_edge_node_labels_ok (g : Graph) (e : Dict) (s t : String)
    (hs : alookup e "source" = some (Val.str s))
    (ht : alookup e "target" = some (Val.str t)) :
    ∃ ps, g.get_edge_node_labels e = Except.ok ps := by
  obtain ⟨ls1, h1⟩ := nodeLabelsOf_str_ok g s
  obtain ⟨ls2, h2⟩ := nodeLabelsOf_str_ok g t
  exact ⟨ls1.flatMap (fun a => ls2.map (fun b => (a, b))),
    by simp [Graph.get_edge_node_labels, dgetE, hs, ht, h1, h2]⟩

theorem pairSetRec_ok (g : Graph) (el : List Dict)
    (h : ∀ e ∈ el, (∃ s, alookup e "source" = some (Val.str s)) ∧
      (∃ t, alookup e "target" = some (Val.str t)))
    (acc : List (String × String)) :
    ∃ ps, pairSetRec g el acc = Except.ok ps := by
  induction el generalizing acc with
  | nil => exact ⟨acc, rfl⟩
  | cons e rest ih =>
    obtain ⟨⟨s, hs⟩, ⟨t, ht⟩⟩ := h e (List.mem_cons_self e rest)
    obtain ⟨ps0, hps0⟩ := get_edge_node_labels_ok g e s t hs ht
    obtain ⟨ps, hps⟩ := ih (fun e0 h0 => h e0 (List.mem_cons_of_mem e h0))
      (ps0.foldl pairInsert acc)
    exact ⟨ps, by simp [pairSetRec, hps0, hps]⟩

theorem nlInsert_pairs (acc : List NLElem) (a b : String)
    (hacc : ∀ x ∈ acc, ∃ c d, x = NLElem.pair c d) :
    ∀ x ∈ nlInsert acc (NLElem.pair a b), ∃ c d, x = NLElem.pair c d := by
  intro x hx
  unfold nlInsert at hx
  by_cases hmem : acc.any (fun y => y = NLElem.pair a b)
  · rw [if_pos hmem] at hx
    exact hacc x hx
  · rw [if_neg hmem] at hx
    rcases List.mem_append.mp hx with h0 | h0
    · exact hacc x h0
    · simp at h0
      exact ⟨a, b, h0⟩

theorem foldl_nlInsert_pairs (ps : List (String × String)) (acc : List NLElem)
    (hacc : ∀ x ∈ acc, ∃ c d, x = NLElem.pair c d) :
    ∀ x ∈ ps.foldl (fun a p => nlInsert a (NLElem.pair p.1 p.2)) acc,
      ∃ c d, x = NLElem.pair c d := by
  induction ps generalizing acc with
  | nil => exact hacc
  | cons p rest ih =>
    exact ih (nlInsert acc (NLElem.pair p.1 p.2)) (nlInsert_pairs acc p.1 p.2 hacc)

theorem implicatedRec_ok_pairs (g : Graph) (ls : List String)
    (h : ∀ l ∈ ls, ∃ el, alookup g.edges l = some el ∧ ∀ e ∈ el, wfU l e = true)
    (acc : List NLElem) (hacc : ∀ x ∈ acc, ∃ a b, x = NLElem.pair a b) :
    ∃ r, implicatedRec g ls acc = Except.ok r ∧
      ∀ x ∈ r, ∃ a b, x = NLElem.pair a b := by
  induction ls generalizing acc with
  | nil => exact ⟨acc, rfl, hacc⟩
  | cons l rest ih =>
    obtain ⟨el, hel, hwf⟩ := h l (List.mem_cons_self l rest)
    obtain ⟨ps0, hps0⟩ := pairSetRec_ok g el
      (fun e he => ⟨(wfU_spec l e (hwf e he)).2.1, (wfU_spec l e (hwf e he)).2.2⟩) []
    obtain ⟨r, hr, hrp⟩ := ih (fun l0 h0 => h l0 (List.mem_cons_of_mem l h0))
      (ps0.foldl (fun a p => nlInsert a (NLElem.pair p.1 p.2)) acc)
      (foldl_nlInsert_pairs ps0 acc hacc)
    refine ⟨r, ?_, hrp⟩
    simp [implicatedRec, Graph.get_source_and_target_labels, Graph.edgesGet, hel, hps0, hr]


theorem buildEdges_uniform_block (el : List Dict) (l : String) (rest : List Dict)
    (hu : ∀ e ∈ el, alookup e "label" = some (Val.str l)) :
    ∀ (acc : List (String × List Dict)) (el0 : List Dict),
      alookup acc l = some el0 →
      buildEdges (el ++ rest) acc = buildEdges rest (aset acc l (el0 ++ el)) := by
  induction el with
  | nil =>
    intro acc el0 hacc
    simp [aset_eq_self_of_alookup acc l el0 hacc]
  | cons e el1 ih =>
    intro acc el0 hacc
    have he := hu e (List.mem_cons_self e el1)
    have hstep : addEdge acc e = Except.ok (aset acc l (el0 ++ [e])) := by
      simp [addEdge, edgeLabel, he, hacc]
    have hrec := ih (fun e0 h0 => hu e0 (List.mem_cons_of_mem e h0))
      (aset acc l (el0 ++ [e])) (el0 ++ [e]) (alookup_aset_self acc l (el0 ++ [e]))
    calc buildEdges ((e :: el1) ++ rest) acc
        = buildEdges (el1 ++ rest) (aset acc l (el0 ++ [e])) := by
          simp [buildEdges, hstep]
      _ = buildEdges rest (aset (aset acc l (el0 ++ [e])) l ((el0 ++ [e]) ++ el1)) := hrec
      _ = buildEdges rest (aset acc l (el0 ++ e :: el1)) := by
          rw [aset_aset]
          simp

theorem buildEdges_blocks (blocks : List (String × List Dict)) :
    ∀ (acc : List (String × List Dict)),
      (∀ kv ∈ blocks, kv.2 ≠ [] ∧ ∀ e ∈ kv.2, alookup e "label" = some (Val.str kv.1)) →
      (∀ kv ∈ blocks, alookup acc kv.1 = none) →
      (blocks.map Prod.fst).Nodup →
      buildEdges (blocks.map Prod.snd).flatten acc = Except.ok (acc ++ blocks) := by
  induction blocks with
  | nil => intro acc _ _ _; simp [buildEdges]
  | cons kv rest ih =>
    intro acc hwf hdisj hnodup
    obtain ⟨l, el⟩ := kv
    obtain ⟨hne, hu⟩ := hwf (l, el) (List.mem_cons_self (l, el) rest)
    cases el with
    | nil => exact absurd rfl hne
    | cons e el1 =>
      have he := hu e (List.mem_cons_self e el1)
      have haccl : alookup acc l = none := hdisj (l, e :: el1) (List.mem_cons_self _ rest)
      have hstep : addEdge acc e = Except.ok (acc ++ [(l, [e])]) := by
        simp [addEdge, edgeLabel, he, haccl, aset_absent acc l [e] haccl]
      have hlook : alookup (acc ++ [(l, [e])]) l = some [e] := by
        rw [alookup_append, haccl]
        simp [alookup]
      have hblock := buildEdges_uniform_block el1 l (rest.map Prod.snd).flatten
        (fun e0 h0 => hu e0 (List.mem_cons_of_mem e h0)) (acc ++ [(l, [e])]) [e] hlook
      have haset : aset (acc ++ [(l, [e])]) l ([e] ++ el1) = acc ++ [(l, e :: el1)] :=
        aset_append_absent acc l [e] ([e] ++ el1) haccl
      simp only [List.map_cons, List.flatten_cons] at *
      have hdisj2 : ∀ kv ∈ rest, alookup (acc ++ [(l, e :: el1)]) kv.1 = none := by
        intro kv0 h0
        rw [alookup_append, hdisj kv0 (List.mem_cons_of_mem _ h0)]
        have hne2 : kv0.1 ≠ l := by
          simp only [List.map_cons, List.nodup_cons] at hnodup
          intro hc
          exact hnodup.1 (hc ▸ List.mem_map_of_mem Prod.fst h0)
        simp [alookup, Ne.symm hne2]
      have hrec := ih (acc ++ [(l, e :: el1)])
        (fun kv0 h0 => hwf kv0 (List.mem_cons_of_mem _ h0)) hdisj2
        (by simp only [List.map_cons, List.nodup_cons] at hnodup; exact hnodup.2)
      calc buildEdges ((e :: el1) ++ (rest.map Prod.snd).flatten) acc
          = buildEdges (el1 ++ (rest.map Prod.snd).flatten) (acc ++ [(l, [e])]) := by
            simp [buildEdges, hstep]
        _ = buildEdges (rest.map Prod.snd).flatten (acc ++ [(l, e :: el1)]) := by
            rw [hblock, haset]
        _ = Except.ok ((acc ++ [(l, e :: el1)]) ++ rest) := hrec
        _ = Except.ok (acc ++ (l, e :: el1) :: rest) := by simp


/-- The default `to_dict()` view of a well-formed graph: since the
"implicated node labels" set actually holds (source,target) label pairs,
no node label ever matches it, so every node is dropped; all edge lists
are emitted, concatenated in index order. -/
theorem to_dict_default (g : Graph)
    (hwe : ∀ kv ∈ g.edges, ∀ e ∈ kv.2, wfU kv.1 e = true)
    (hwn : ∀ kv ∈ g.nodes, (alookup kv.2 "labels").isSome = true) :
    g.to_dict [] NLArg.nothing = Except.ok ⟨[], (g.edges.map Prod.snd).flatten⟩ := by
  have hlabels : ∀ l ∈ g.edges.map Prod.fst,
      ∃ el, alookup g.edges l = some el ∧ ∀ e ∈ el, wfU l e = true := by
    intro l hl
    obtain ⟨el, hel⟩ := alookup_isSome_of_mem_keys g.edges l hl
    exact ⟨el, hel, fun e he => hwe (l, el) (alookup_mem _ _ _ hel) e he⟩
  obtain ⟨r, hr, hrp⟩ := implicatedRec_ok_pairs g (g.edges.map Prod.fst) hlabels []
    (by intro x hx; simp at hx)
  have hfilter := filterNodes_pairs r hrp g.nodes hwn []
  have hincl : List.filter (fun kv => decide (kv.1 ∈ List.map Prod.fst g.edges)) g.edges
      = g.edges := by
    rw [List.filter_eq_self]
    intro kv hkv
    simpa using List.mem_map_of_mem Prod.fst hkv
  simp [Graph.to_dict, hr, Graph.filter_nodes_by_labels, hfilter, hincl]

/-- Claim C8 (amended: the round trip reproduces the retained subset with
two caveats forced by the code: the default node policy retains no nodes
at all, because the implicated "label" set holds label pairs that no node
label equals, and an edge label whose stored list is empty disappears on
rebuild, because reconstruction only creates index entries for edges it
sees).  For a well-formed graph whose edge lists are all non-empty,
rebuilding a Graph from `to_dict()` reproduces the node index restricted
to the included nodes (here the empty index) and exactly the same
per-label edge lists. -/
theorem C8_roundtrip (g : Graph)
    (hwe : ∀ kv ∈ g.edges, kv.2 ≠ [] ∧ ∀ e ∈ kv.2, wfU kv.1 e = true)
    (hwn : ∀ kv ∈ g.nodes, (alookup kv.2 "labels").isSome = true)
    (hnodup : (g.edges.map Prod.fst).Nodup) :
    g.to_dict [] NLArg.nothing = Except.ok ⟨[], (g.edges.map Prod.snd).flatten⟩ ∧
    Graph.init ⟨[], (g.edges.map Prod.snd).flatten⟩ = Except.ok ⟨[], g.edges⟩ := by
  constructor
  · exact to_dict_default g (fun kv hkv => (hwe kv hkv).2) hwn
  · have hblocks := buildEdges_blocks g.edges []
      (fun kv hkv => ⟨(hwe kv hkv).1,
        fun e he => (wfU_spec kv.1 e ((hwe kv hkv).2 e he)).1⟩)
      (fun kv _ => rfl) hnodup
    simp [Graph.init, buildNodes, hblocks]

/-- Counterexample to C8 as stated: after `compose_edges("invokes",
"contains")` the graph stores the empty list under `invokes_contains`;
the rebuilt graph has no such key, so the per-label edge lists are not
reproduced. -/
theorem C8_roundtrip_counterexample :
    ((Graph.init testData).bind
        (fun g => g.compose_edges "invokes" "contains" none)).map
        (fun g1 => alookup g1.edges "invokes_contains") = Except.ok (some []) ∧
    (((Graph.init testData).bind
        (fun g => g.compose_edges "invokes" "contains" none)).bind
        (fun g1 => (g1.to_dict [] NLArg.nothing).bind Graph.init)).map
        (fun g2 => alookup g2.edges "invokes_contains") = Except.ok none :=
  ⟨rfl, rfl⟩

/-- Witness for C8 on the test-suite graph. -/
theorem C8_roundtrip_witness :
    testGraph.to_dict [] NLArg.nothing =
      Except.ok ⟨[], (testGraph.edges.map Prod.snd).flatten⟩ ∧
    Graph.init ⟨[], (testGraph.edges.map Prod.snd).flatten⟩ =
      Except.ok ⟨[], testGraph.edges⟩ :=
  C8_roundtrip testGraph (by decide) (by decide) (by decide)

end ArcanaLib
